import Mathlib

/-!
Verification of the agwb Python accessor layer (targets/python/agwb/agwb.py).

The development shallowly embeds the source:
* `BitField` and the encode/decode paths of `_BitFieldAccess.read` / `_BitFieldAccess.write`;
* the `DemoIface` bus object (deferred queue, futures, RMW coalescer) as an explicit
  state machine `IfState` whose deferred closures become first-order `DOp` values;
* the structural layer (`Vector.__getitem__`, `Block.verify_id_and_version`,
  `_Register.read_fifo` / `_Register.write_fifo`, `StatusRegister.write`).

Python integers are unbounded, so machine words are `Nat` (all register values in the
source are non-negative); bitfield logical values are `Int` because signed fields decode
to negative numbers.  `x & ~m` never appears literally in the source: the code always
uses the `(x | m) ^ m` pattern, which is kept verbatim here.
-/

namespace Agwb

/-- Error taxonomy: the exceptions raised by the source, one constructor per message. -/
inductive WbErr where
  | outOfRange
  | readOnly
  | indexOutOfBounds
  | identityMismatch
  | unresolved
  deriving DecidableEq

/-- Bitfield descriptor, from `BitField.__init__(msb, lsb, is_signed)`. -/
structure BitField where
  msb : Nat
  lsb : Nat
  signed : Bool
  deriving DecidableEq

/-- Derived field `sign_mask`: `1 << (msb - lsb)` when signed, else `0`. -/
def BitField.sign_mask (bf : BitField) : Nat :=
  if bf.signed then 1 <<< (bf.msb - bf.lsb) else 0

/-- Derived field `vmin`: `-sign_mask` when signed, else `0`. -/
def BitField.vmin (bf : BitField) : Int :=
  if bf.signed then -(((1 <<< (bf.msb - bf.lsb) : Nat)) : Int) else 0

/-- Derived field `vmax`: `sign_mask - 1` when signed, else `(1 << (msb - lsb + 1)) - 1`. -/
def BitField.vmax (bf : BitField) : Int :=
  if bf.signed then (((1 <<< (bf.msb - bf.lsb) : Nat)) : Int) - 1
  else (((1 <<< (bf.msb - bf.lsb + 1) : Nat)) : Int) - 1

/-- Derived field `mask`: `((1 << (msb + 1)) - 1) ^ ((1 << lsb) - 1)`. -/
def BitField.mask (bf : BitField) : Nat :=
  ((1 <<< (bf.msb + 1)) - 1) ^^^ ((1 <<< bf.lsb) - 1)

/-- Decoding a raw register word through a bitfield: the pure part of
`_BitFieldAccess.read` (mask, shift, two's-complement sign extension). -/
def bfDecode (bf : BitField) (raw : Nat) : Int :=
  let rval := (raw &&& bf.mask) >>> bf.lsb
  if bf.sign_mask ≠ 0 ∧ rval &&& bf.sign_mask ≠ 0 then
    ((rval : Int)) - (((bf.sign_mask <<< 1 : Nat)) : Int)
  else ((rval : Int))

/-- The negative-value conversion shared by `_BitFieldAccess.write` and
`_BitFieldAccess.writex`: `if sign_mask and value < 0 then value += sign_mask << 1`.
The result is cast to `Nat`; on every in-range input it is non-negative. -/
def signConv (bf : BitField) (value : Int) : Nat :=
  (if bf.sign_mask ≠ 0 ∧ value < 0 then value + (((bf.sign_mask <<< 1 : Nat)) : Int)
   else value).toNat

/-- The raw word computed by `_BitFieldAccess.write` after validation:
clear the mask bits of the prior word (`rval |= mask; rval ^= mask`), then
or in the shifted, masked value. -/
def encWord (bf : BitField) (value : Int) (raw : Nat) : Nat :=
  ((raw ||| bf.mask) ^^^ bf.mask) ||| ((signConv bf value <<< bf.lsb) &&& bf.mask)

/-- Validation plus encoding: the pure content of `_BitFieldAccess.write`
(range check first, then the register-word update). -/
def bfEncode (bf : BitField) (value : Int) (raw : Nat) : Except WbErr Nat :=
  if value < bf.vmin ∨ value > bf.vmax then .error .outOfRange
  else .ok (encWord bf value raw)

/-- Bitwise complement-by-xor used throughout the source: `andNot x m = x & ~m`. -/
def andNot (x m : Nat) : Nat := (x ||| m) ^^^ m

/-- Deferred operations held in `DemoIface.opers`.  The source stores zero-argument
closures; each closure form appearing in the code becomes one constructor.  A future
is identified by the `Nat` under which its resolved value is stored. -/
inductive DOp where
  /-- `lambda: self._write(addr, val)` appended by `writex`. -/
  | dwrite (addr val : Nat)
  /-- `lambda: df.set(self._read(addr))` appended by `readx` and by the first `rmw`. -/
  | dread (fid addr : Nat)
  /-- `lambda: self._rmw(odf, waddr, mask, nval)` appended on RMW finalization. -/
  | drmw (fid addr mask nval : Nat)
  deriving DecidableEq

/-- The state touched while the queue executes: the register file `rf` (the global
`rf` table of the demo) and the resolved futures. -/
structure ExecSt where
  rf : Nat → Nat
  futs : Nat → Option Nat

/-- `rf[addr] = val`. -/
def updF (f : Nat → Nat) (a v : Nat) : Nat → Nat :=
  fun x => if x = a then v else f x

/-- `df.set(v)` for the future numbered `fid`. -/
def setFut (f : Nat → Option Nat) (fid v : Nat) : Nat → Option Nat :=
  fun i => if i = fid then some v else f i

/-- Executing one queued closure.  A `drmw` whose baseline future is still
unresolved would re-enter `dispatch` in the source (`df.val` inside `_rmw`),
which on the still-uncleared list diverges; that case is modelled as failure. -/
def execOp (e : ExecSt) : DOp → Option ExecSt
  | .dwrite a v => some { e with rf := updF e.rf a v }
  | .dread fid a => some { e with futs := setFut e.futs fid (e.rf a) }
  | .drmw fid a m nv =>
    match e.futs fid with
    | some b => some { e with rf := updF e.rf a (((b ||| m) ^^^ m) ||| nv) }
    | none => none

/-- `for x in self.opers: x()` — FIFO execution of the queue. -/
def execList (e : ExecSt) : List DOp → Option ExecSt
  | [] => some e
  | op :: rest =>
    match execOp e op with
    | some e2 => execList e2 rest
    | none => none

/-- The full `DemoIface` state.  `rmw_df` is the future number of the pending
baseline read; the source keeps `rmw_df = None` exactly when `rmw_addr = None`, so
one option field suffices and `rmw_df` is only meaningful while `rmw_addr` is set.
`nextFid` numbers freshly created `DI_future` objects and `nDispatch` counts the
calls to `dispatch` (used to state C7). -/
structure IfState where
  rf : Nat → Nat
  futs : Nat → Option Nat
  opers : List DOp
  nextFid : Nat
  rmw_addr : Option Nat
  rmw_df : Nat
  rmw_mask : Nat
  rmw_nval : Nat
  nDispatch : Nat

/-- `DemoIface.__init__`: empty queue, no pending RMW, zeroed accumulators. -/
def initState (rf : Nat → Nat) : IfState :=
  { rf := rf, futs := fun _ => none, opers := [], nextFid := 0,
    rmw_addr := none, rmw_df := 0, rmw_mask := 0, rmw_nval := 0, nDispatch := 0 }

/-- `DemoIface.dispatch`: run every queued operation in order, then clear the
queue; a no-op (apart from having been called) on the empty queue. -/
def dispatch (s : IfState) : Except WbErr IfState :=
  let s1 : IfState := { s with nDispatch := s.nDispatch + 1 }
  if s1.opers = [] then .ok s1
  else
    match execList { rf := s1.rf, futs := s1.futs } s1.opers with
    | some e => .ok { s1 with rf := e.rf, futs := e.futs, opers := [] }
    | none => .error .unresolved

/-- `DemoIface.rmw(addr=None, mask=0, val=0)`, translated statement by statement.
Note two features of the source kept verbatim: in the finalization branch the
parameter `mask` is overwritten by the saved `self.rmw_mask` (`mask = self.rmw_mask`),
and `rmw_mask` / `rmw_nval` are not reset when the pending RMW is flushed. -/
def rmwOp (s : IfState) (addr : Option Nat) (mask val : Nat) : IfState :=
  let p : IfState × Nat :=
    match s.rmw_addr with
    | some wa =>
      if addr ≠ some wa then
        ({ s with opers := s.opers ++ [DOp.drmw s.rmw_df wa s.rmw_mask s.rmw_nval],
                  rmw_addr := none }, s.rmw_mask)
      else (s, mask)
    | none => (s, mask)
  let s1 := p.1
  let m := p.2
  match addr with
  | none => s1
  | some a =>
    let s2 : IfState :=
      match s1.rmw_addr with
      | none => { s1 with opers := s1.opers ++ [DOp.dread s1.nextFid a],
                          rmw_df := s1.nextFid, nextFid := s1.nextFid + 1,
                          rmw_addr := some a }
      | some _ => s1
    { s2 with rmw_mask := s2.rmw_mask ||| m,
              rmw_nval := ((s2.rmw_nval ||| m) ^^^ m) ||| (val &&& m) }

/-- `self.rmw()` with no arguments: finalize the pending RMW, if any. -/
def rmwFinalize (s : IfState) : IfState := rmwOp s none 0 0

/-- `DemoIface.read`: finalize any pending RMW, drain a non-empty queue, then
perform the immediate register-file read. -/
def iread (s : IfState) (addr : Nat) : Except WbErr (Nat × IfState) :=
  let s1 := rmwFinalize s
  match (if s1.opers = [] then Except.ok s1 else dispatch s1) with
  | .ok s2 => .ok (s2.rf addr, s2)
  | .error e => .error e

/-- `DemoIface.write`: same preamble as `read`, then the immediate write. -/
def iwrite (s : IfState) (addr val : Nat) : Except WbErr IfState :=
  let s1 := rmwFinalize s
  match (if s1.opers = [] then Except.ok s1 else dispatch s1) with
  | .ok s2 => .ok { s2 with rf := updF s2.rf addr val }
  | .error e => .error e

/-- `DemoIface.writex`: finalize any pending RMW, then enqueue the write. -/
def writexOp (s : IfState) (addr val : Nat) : IfState :=
  let s1 := rmwFinalize s
  { s1 with opers := s1.opers ++ [DOp.dwrite addr val] }

/-- `DemoIface.readx`: finalize any pending RMW, create a future, enqueue the
capturing read; returns the future number with the new state. -/
def readxOp (s : IfState) (addr : Nat) : Nat × IfState :=
  let s1 := rmwFinalize s
  (s1.nextFid,
   { s1 with opers := s1.opers ++ [DOp.dread s1.nextFid addr],
             nextFid := s1.nextFid + 1 })

/-- `DI_future.__getattr__("val")`: return the stored value if resolved;
otherwise dispatch once and re-check, failing if still unresolved. -/
def futVal (s : IfState) (fid : Nat) : Except WbErr (Nat × IfState) :=
  match s.futs fid with
  | some v => .ok (v, s)
  | none =>
    match dispatch s with
    | .ok s2 =>
      match s2.futs fid with
      | some v => .ok (v, s2)
      | none => .error .unresolved
    | .error e => .error e

/-- `_BitFieldAccess.write` over the demo interface: range check, sign conversion,
immediate register read, mask update, immediate register write — in that order. -/
def bfaWrite (s : IfState) (base : Nat) (bf : BitField) (value : Int) :
    Except WbErr IfState :=
  if value < bf.vmin ∨ value > bf.vmax then .error .outOfRange
  else
    match iread s base with
    | .ok (rval, s1) => iwrite s1 base (encWord bf value rval)
    | .error e => .error e

/-- `_BitFieldAccess.writex`: range check, sign conversion, shift, then
`iface.rmw(base, mask, value)`, finalized at once when `now` is true. -/
def bfaWritex (s : IfState) (base : Nat) (bf : BitField) (value : Int) (now : Bool) :
    Except WbErr IfState :=
  if value < bf.vmin ∨ value > bf.vmax then .error .outOfRange
  else
    let s1 := rmwOp s (some base) bf.mask (signConv bf value <<< bf.lsb)
    .ok (if now then rmwFinalize s1 else s1)

/-- `StatusRegister.write`: unconditionally raises. -/
def statusWrite (_s : IfState) (_base _val : Nat) : Except WbErr IfState :=
  .error .readOnly

/-- A `Vector` node: base address, element count `nitems`, and the element
class's address span `x__size` (the stride). -/
structure VectorA where
  base : Nat
  nitems : Nat
  stride : Nat

/-- `Vector.__getitem__`: bounds check, then the element accessor's base address
`base + key * x__size`. -/
def vectorGet (v : VectorA) (key : Nat) : Except WbErr Nat :=
  if key ≥ v.nitems then .error .indexOutOfBounds
  else .ok (v.base + key * v.stride)

mutual
/-- Schema of a generated `Block` subclass: the `x__is_blackbox` flag, the offsets
of its `ID` and `VER` registers, the constants `x__id` / `x__ver`, and the
sub-block fields (offset plus sub-schema). -/
inductive BSchema where
  | blk (blackbox : Bool) (idOff verOff idC verC : Nat) (subs : SubList)

/-- Sub-block fields of a block schema. -/
inductive SubList where
  | nil
  | cons (off : Nat) (b : BSchema) (rest : SubList)
end

/-- `Block.verify_id_and_version` as the source executes: the `for` loop over
`x__fields` constructs each sub-accessor and then only `continue`s (its body is
dead code, so no recursion and no sub-block register access happens), after which
the block's own `ID` and `VER` are checked unless it is a blackbox.  Immediate
register reads are abstracted by the register-file lookup `rf`, matching
`DemoIface._read` on a drained queue. -/
def verify_id_and_version (rf : Nat → Nat) (base : Nat) : BSchema → Except WbErr Unit
  | .blk bb idOff verOff idC verC _subs =>
    if bb = false then
      if rf (base + idOff) ≠ idC then .error .identityMismatch
      else if rf (base + verOff) ≠ verC then .error .identityMismatch
      else .ok ()
    else .ok ()

mutual
/-- Modelled from the spec: the recursive verification that
`verify_id_and_version` is documented to perform — every field that is a
non-blackbox block is verified recursively, then the block's own `ID` and `VER`
are compared with the schema constants unless the block is a blackbox. -/
def verifySpecRec (rf : Nat → Nat) (base : Nat) : BSchema → Bool
  | .blk bb idOff verOff idC verC subs =>
    if bb then true
    else
      verifySpecSubs rf base subs &&
      decide (rf (base + idOff) = idC) && decide (rf (base + verOff) = verC)

/-- Modelled from the spec: recursive verification of the sub-block fields. -/
def verifySpecSubs (rf : Nat → Nat) (base : Nat) : SubList → Bool
  | .nil => true
  | .cons off b rest => verifySpecRec rf (base + off) b && verifySpecSubs rf base rest
end

/-- A register value as Python passes it to the duck-typed interface: the
single-word operations carry scalars, the streaming ones carry sequences. -/
inductive RegVal where
  | scalar (n : Nat)
  | seq (vs : List Nat)
  deriving DecidableEq

/-- The bus-capability method a `_Register` accessor invokes, with its arguments. -/
inductive IfaceOp where
  | oread (addr : Nat)
  | owrite (addr : Nat) (v : RegVal)
  | oreadFifo (addr count : Nat)
  | owriteFifo (addr : Nat) (vs : List Nat)
  deriving DecidableEq

/-- `_Register.read_fifo(count)`: `return self.x__iface.read_fifo(self.x__base, count)`. -/
def reg_read_fifo (base count : Nat) : IfaceOp := .oreadFifo base count

/-- `_Register.write_fifo(values)`: `self.x__iface.write(self.x__base, values)` —
the source invokes the single-word `write` method with the sequence. -/
def reg_write_fifo (base : Nat) (values : List Nat) : IfaceOp :=
  .owrite base (.seq values)

/-- The all-zero register file of the demo harness (`rf = 1024*[0]`, addresses
beyond the table are irrelevant to the claims and read as zero). -/
def rf0 : Nat → Nat := fun _ => 0

/-- A freshly constructed demo interface over the zeroed register file. -/
def s0 : IfState := initState rf0

/-- The empty future store. -/
def noFuts : Nat → Option Nat := fun _ => none

/-- The interface state after the immediate-access preamble of `read`/`write`
(finalize the pending RMW, then drain a non-empty queue), given the execution
result `e` of the finalized queue; used to state C6. -/
def postState (s : IfState) (e : ExecSt) : IfState :=
  let sf := rmwFinalize s
  if sf.opers = [] then sf
  else { sf with rf := e.rf, futs := e.futs, opers := [], nDispatch := sf.nDispatch + 1 }

/-- A demo interface whose future number 0 is already resolved to 42. -/
def sResolved : IfState := { s0 with futs := setFut noFuts 0 42 }

/-- Demo schema for C5: a non-blackbox parent block at base 0 (ID register at
offset 0 with constant 1, VER at offset 1 with constant 2) holding one
non-blackbox child block at offset 10 (ID at its offset 0 with constant 7,
VER at its offset 1 with constant 7). -/
def schema5 : BSchema :=
  .blk false 0 1 1 2 (.cons 10 (.blk false 0 1 7 7 .nil) .nil)

/-- Register file for C5: the parent's ID and VER match the schema, the child's
registers (addresses 10 and 11) read 0 and do not. -/
def rf5 : Nat → Nat := fun a => if a = 0 then 1 else if a = 1 then 2 else 0

theorem andNot_testBit (x m i : Nat) :
    (andNot x m).testBit i = (x.testBit i && !(m.testBit i)) := by
  simp only [andNot, Nat.testBit_xor, Nat.testBit_or]
  cases x.testBit i <;> cases m.testBit i <;> rfl

theorem mask_testBit (bf : BitField) (hb : bf.lsb ≤ bf.msb) (i : Nat) :
    bf.mask.testBit i = (decide (bf.lsb ≤ i) && decide (i ≤ bf.msb)) := by
  simp only [BitField.mask, Nat.one_shiftLeft, Nat.testBit_xor,
    Nat.testBit_two_pow_sub_one]
  by_cases h1 : bf.lsb ≤ i <;> by_cases h2 : i ≤ bf.msb <;>
    simp [h1, h2] <;> omega

theorem and_two_pow_eq_zero {u n : Nat} (h : u < 2 ^ n) : u &&& 2 ^ n = 0 := by
  apply Nat.eq_of_testBit_eq
  intro i
  simp only [Nat.testBit_and, Nat.zero_testBit, Nat.testBit_two_pow]
  by_cases hi : n = i
  · subst hi
    simp [Nat.testBit_lt_two_pow h]
  · simp [hi]

theorem and_two_pow_ne_zero {u n : Nat} (h1 : 2 ^ n ≤ u) (h2 : u < 2 ^ (n + 1)) :
    u &&& 2 ^ n ≠ 0 := by
  have hdiv : u / 2 ^ n = 1 := by
    have hpos : 0 < 2 ^ n := Nat.pos_pow_of_pos n (by norm_num)
    have h2' : u < 2 * 2 ^ n := by
      have : (2 : Nat) ^ (n + 1) = 2 ^ n * 2 := pow_succ 2 n
      omega
    exact Nat.div_eq_of_lt_le (by omega) (by omega)
  have hbit : u.testBit n = true := by
    rw [Nat.testBit_to_div_mod, hdiv]
    decide
  intro h0
  have h3 := congrArg (fun x => Nat.testBit x n) h0
  simp only [Nat.testBit_and, Nat.zero_testBit, hbit, Nat.testBit_two_pow_self,
    Bool.and_self] at h3
  exact Bool.noConfusion h3

/-- Shifting a value that fits in the field and masking changes nothing. -/
theorem shl_and_mask (bf : BitField) (hb : bf.lsb ≤ bf.msb) {u : Nat}
    (hu : u < 2 ^ (bf.msb - bf.lsb + 1)) :
    (u <<< bf.lsb) &&& bf.mask = u <<< bf.lsb := by
  apply Nat.eq_of_testBit_eq
  intro i
  simp only [Nat.testBit_and, Nat.testBit_shiftLeft, mask_testBit bf hb]
  by_cases hi : bf.lsb ≤ i
  · by_cases hbit : u.testBit (i - bf.lsb) = true
    · have hlt : i - bf.lsb < bf.msb - bf.lsb + 1 := by
        by_contra hge2
        have hle : (2 : Nat) ^ (bf.msb - bf.lsb + 1) ≤ 2 ^ (i - bf.lsb) :=
          Nat.pow_le_pow_right (by norm_num) (by omega)
        have hf : u.testBit (i - bf.lsb) = false :=
          Nat.testBit_lt_two_pow (lt_of_lt_of_le hu hle)
        rw [hbit] at hf
        exact Bool.noConfusion hf
      have hle2 : i ≤ bf.msb := by omega
      simp [hi, hbit, hle2]
    · simp only [Bool.not_eq_true] at hbit
      simp [hi, hbit]
  · simp [hi]

/-- Clearing the mask region and or-ing a value inside the mask region:
the mask region of the result is exactly that value. -/
theorem clear_or_and_mask (r m s : Nat) :
    ((((r ||| m) ^^^ m) ||| (s &&& m)) &&& m) = s &&& m := by
  apply Nat.eq_of_testBit_eq
  intro i
  simp only [Nat.testBit_and, Nat.testBit_or, Nat.testBit_xor]
  cases r.testBit i <;> cases m.testBit i <;> cases s.testBit i <;> rfl

theorem signConv_lt (bf : BitField) (v : Int)
    (h1 : bf.vmin ≤ v) (h2 : v ≤ bf.vmax) :
    signConv bf v < 2 ^ (bf.msb - bf.lsb + 1) := by
  have hP : (0 : Nat) < 2 ^ (bf.msb - bf.lsb) := Nat.pos_pow_of_pos _ (by norm_num)
  have hpow : (2 : Nat) ^ (bf.msb - bf.lsb + 1) = 2 ^ (bf.msb - bf.lsb) * 2 :=
    pow_succ 2 (bf.msb - bf.lsb)
  cases hsb : bf.signed
  · have h1' : (0 : Int) ≤ v := by
      simpa [BitField.vmin, hsb] using h1
    have h2' : v ≤ (((2 : Nat) ^ (bf.msb - bf.lsb + 1) : Nat) : Int) - 1 := by
      simpa [BitField.vmax, hsb, Nat.one_shiftLeft] using h2
    have hsc : signConv bf v = v.toNat := by
      simp [signConv, BitField.sign_mask, hsb]
    rw [hsc]
    generalize hPd : (2 : Nat) ^ (bf.msb - bf.lsb + 1) = P at *
    omega
  · have h1' : -(((2 : Nat) ^ (bf.msb - bf.lsb) : Nat) : Int) ≤ v := by
      simpa [BitField.vmin, hsb, Nat.one_shiftLeft] using h1
    have h2' : v ≤ (((2 : Nat) ^ (bf.msb - bf.lsb) : Nat) : Int) - 1 := by
      simpa [BitField.vmax, hsb, Nat.one_shiftLeft] using h2
    have hsm : bf.sign_mask = 2 ^ (bf.msb - bf.lsb) := by
      simp [BitField.sign_mask, hsb, Nat.one_shiftLeft]
    have hshift : ((2 : Nat) ^ (bf.msb - bf.lsb)) <<< 1 = 2 ^ (bf.msb - bf.lsb) * 2 := by
      rw [Nat.shiftLeft_eq, pow_one]
    by_cases hv : v < 0
    · have hsc : signConv bf v =
          (v + (((2 : Nat) ^ (bf.msb - bf.lsb) * 2 : Nat) : Int)).toNat := by
        simp [signConv, hsm, hshift, hv, hP.ne']
      rw [hsc, hpow]
      generalize hPd : (2 : Nat) ^ (bf.msb - bf.lsb) = P at *
      omega
    · have hsc : signConv bf v = v.toNat := by
        simp [signConv, hv]
      rw [hsc, hpow]
      generalize hPd : (2 : Nat) ^ (bf.msb - bf.lsb) = P at *
      omega

/-- C3: for every bitfield of width at least one and every value in `[vmin, vmax]`,
encoding into any prior raw word succeeds and decoding the result through the same
bitfield returns the value: `decode(encode(v, raw)) == v`, signed or unsigned. -/
theorem c3_decode_encode_inverse (bf : BitField) (hb : bf.lsb ≤ bf.msb)
    (v : Int) (raw : Nat) (h1 : bf.vmin ≤ v) (h2 : v ≤ bf.vmax) :
    bfEncode bf v raw = .ok (encWord bf v raw) ∧ bfDecode bf (encWord bf v raw) = v := by
  have hok : ¬ (v < bf.vmin ∨ v > bf.vmax) := by
    push_neg
    exact ⟨h1, h2⟩
  constructor
  · simp [bfEncode, hok]
  · have hu : signConv bf v < 2 ^ (bf.msb - bf.lsb + 1) := signConv_lt bf v h1 h2
    have h5 : (encWord bf v raw &&& bf.mask) >>> bf.lsb = signConv bf v := by
      unfold encWord
      rw [clear_or_and_mask, shl_and_mask bf hb hu, Nat.shiftLeft_shiftRight]
    simp only [bfDecode, h5]
    have hP : (0 : Nat) < 2 ^ (bf.msb - bf.lsb) := Nat.pos_pow_of_pos _ (by norm_num)
    have hpow : (2 : Nat) ^ (bf.msb - bf.lsb + 1) = 2 ^ (bf.msb - bf.lsb) * 2 :=
      pow_succ 2 (bf.msb - bf.lsb)
    cases hsb : bf.signed
    · have h1' : (0 : Int) ≤ v := by
        simpa [BitField.vmin, hsb] using h1
      have hsm0 : bf.sign_mask = 0 := by
        simp [BitField.sign_mask, hsb]
      have hsc : signConv bf v = v.toNat := by
        simp [signConv, hsm0]
      rw [hsc, hsm0, if_neg (by simp)]
      exact Int.toNat_of_nonneg h1'
    · have h1' : -(((2 : Nat) ^ (bf.msb - bf.lsb) : Nat) : Int) ≤ v := by
        simpa [BitField.vmin, hsb, Nat.one_shiftLeft] using h1
      have h2' : v ≤ (((2 : Nat) ^ (bf.msb - bf.lsb) : Nat) : Int) - 1 := by
        simpa [BitField.vmax, hsb, Nat.one_shiftLeft] using h2
      have hsm : bf.sign_mask = 2 ^ (bf.msb - bf.lsb) := by
        simp [BitField.sign_mask, hsb, Nat.one_shiftLeft]
      have hshift : ((2 : Nat) ^ (bf.msb - bf.lsb)) <<< 1 = 2 ^ (bf.msb - bf.lsb) * 2 := by
        rw [Nat.shiftLeft_eq, pow_one]
      by_cases hv : v < 0
      · have hsc : signConv bf v =
            (v + (((2 : Nat) ^ (bf.msb - bf.lsb) * 2 : Nat) : Int)).toNat := by
          simp [signConv, hsm, hshift, hv, hP.ne']
        have hub1 : 2 ^ (bf.msb - bf.lsb) ≤ signConv bf v := by
          rw [hsc]
          generalize hPd : (2 : Nat) ^ (bf.msb - bf.lsb) = P at *
          omega
        have hub2 : signConv bf v < 2 ^ (bf.msb - bf.lsb + 1) := signConv_lt bf v h1 h2
        have hcond : signConv bf v &&& 2 ^ (bf.msb - bf.lsb) ≠ 0 :=
          and_two_pow_ne_zero hub1 hub2
        rw [hsm, hshift, if_pos ⟨hP.ne', hcond⟩, hsc]
        generalize hPd : (2 : Nat) ^ (bf.msb - bf.lsb) = P at *
        push_cast
        omega
      · have hsc : signConv bf v = v.toNat := by
          simp [signConv, hv]
        have hult : signConv bf v < 2 ^ (bf.msb - bf.lsb) := by
          rw [hsc]
          generalize hPd : (2 : Nat) ^ (bf.msb - bf.lsb) = P at *
          omega
        have hcond : signConv bf v &&& 2 ^ (bf.msb - bf.lsb) = 0 :=
          and_two_pow_eq_zero hult
        rw [hsm, if_neg (by simp [hcond]), hsc]
        generalize hPd : (2 : Nat) ^ (bf.msb - bf.lsb) = P at *
        omega

/-- Concrete instantiation of C3 at the spec example field `{msb=9, lsb=4, unsigned}`
with value `11` and prior word `0`. -/
theorem c3_witness :
    bfEncode ⟨9, 4, false⟩ 11 0 = .ok (encWord ⟨9, 4, false⟩ 11 0) ∧
    bfDecode ⟨9, 4, false⟩ (encWord ⟨9, 4, false⟩ 11 0) = 11 :=
  c3_decode_encode_inverse ⟨9, 4, false⟩ (by decide) 11 0 (by decide) (by decide)

theorem rmwFinalize_none {s : IfState} (h : s.rmw_addr = none) :
    rmwFinalize s = s := by
  unfold rmwFinalize rmwOp
  rw [h]

theorem rmwFinalize_some {s : IfState} {wa : Nat} (h : s.rmw_addr = some wa) :
    rmwFinalize s =
      { s with opers := s.opers ++ [DOp.drmw s.rmw_df wa s.rmw_mask s.rmw_nval],
               rmw_addr := none } := by
  unfold rmwFinalize rmwOp
  rw [h]
  rfl

/-- `dispatch` written without the intermediate `let`, for rewriting. -/
theorem dispatch_eq (s : IfState) :
    dispatch s =
      if s.opers = [] then .ok { s with nDispatch := s.nDispatch + 1 }
      else
        match execList { rf := s.rf, futs := s.futs } s.opers with
        | some e => .ok { s with rf := e.rf, futs := e.futs, opers := [],
                                 nDispatch := s.nDispatch + 1 }
        | none => .error .unresolved := by
  unfold dispatch
  rfl

theorem dispatch_nDispatch {s s2 : IfState} (h : dispatch s = .ok s2) :
    s2.nDispatch = s.nDispatch + 1 := by
  rw [dispatch_eq] at h
  split at h
  · cases h
    rfl
  · split at h
    · cases h
      rfl
    · cases h

theorem dispatch_err {s : IfState} {e : WbErr} (h : dispatch s = .error e) :
    e = .unresolved := by
  rw [dispatch_eq] at h
  split at h
  · cases h
  · split at h
    · cases h
    · cases h
      rfl

theorem immOk_err {s1 : IfState} {e : WbErr}
    (h : (if s1.opers = [] then Except.ok s1 else dispatch s1) = .error e) :
    e = .unresolved := by
  split at h
  · cases h
  · exact dispatch_err h

theorem iread_not_oor (s : IfState) (a : Nat) :
    iread s a ≠ .error .outOfRange := by
  intro h
  simp only [iread] at h
  split at h
  · cases h
  · rename_i heq
    cases h
    cases immOk_err heq

theorem iwrite_not_oor (s : IfState) (a v : Nat) :
    iwrite s a v ≠ .error .outOfRange := by
  intro h
  simp only [iwrite] at h
  split at h
  · cases h
  · rename_i heq
    cases h
    cases immOk_err heq

/-- C1 (evaluation of the code at the failing input): calling `rmw(0, 15, 3)` and
then `rmw(1, 240, 80)` on a fresh interface schedules address 0's finalized write
`drmw 0 0 15 3` and address 1's baseline read, as the claim requires, but the
pending entry for address 1 keeps mask 15 and value `80 & 15 = 0` instead of the
claimed mask 240 and value `80 & 240 = 80`: the finalization branch overwrites
the `mask` parameter with the saved `rmw_mask`, and the accumulators are never
reset to 0. -/
theorem c1_rmw_switch_pending_bug :
    (rmwOp (rmwOp s0 (some 0) 15 3) (some 1) 240 80).opers =
      [DOp.dread 0 0, DOp.drmw 0 0 15 3, DOp.dread 1 1] ∧
    (rmwOp (rmwOp s0 (some 0) 15 3) (some 1) 240 80).rmw_addr = some 1 ∧
    (rmwOp (rmwOp s0 (some 0) 15 3) (some 1) 240 80).rmw_mask = 15 ∧
    (rmwOp (rmwOp s0 (some 0) 15 3) (some 1) 240 80).rmw_nval = 0 ∧
    ¬ ((rmwOp (rmwOp s0 (some 0) 15 3) (some 1) 240 80).rmw_mask = 240 ∧
       (rmwOp (rmwOp s0 (some 0) 15 3) (some 1) 240 80).rmw_nval = 80) := by
  refine ⟨by decide, by decide, by decide, by decide, by decide⟩

/-- C5 (evaluation of the code at the failing input): the child block's ID
register (address 10) reads 0 against its schema constant 7, yet
`verify_id_and_version` succeeds, because the field loop in the source is dead
code and never recurses into sub-blocks; the recursive check described by the
method's own docstring fails on the same input. -/
theorem c5_verify_not_recursive :
    verify_id_and_version rf5 0 schema5 = .ok () ∧
    rf5 (0 + 10 + 0) ≠ 7 ∧
    verifySpecRec rf5 0 schema5 = false :=
  ⟨rfl, by decide, rfl⟩

/-- C8 (evaluation of the code at the failing input): `read_fifo` passes through
to the bus capability's bulk read, but `write_fifo` invokes the bus's single-word
`write` method with the sequence as its value argument instead of the bulk
`write_fifo` operation. -/
theorem c8_write_fifo_not_bulk :
    reg_read_fifo 5 2 = .oreadFifo 5 2 ∧
    reg_write_fifo 5 [1, 2] = .owrite 5 (.seq [1, 2]) ∧
    reg_write_fifo 5 [1, 2] ≠ .owriteFifo 5 [1, 2] :=
  ⟨rfl, rfl, by decide⟩

/-- C9: indexing a vector fails with IndexOutOfBounds exactly when the index is
at least the element count, and every valid index yields a fresh element
accessor based at `base + index * stride`. -/
theorem c9_vector_index (v : VectorA) (key : Nat) :
    (vectorGet v key = .error .indexOutOfBounds ↔ v.nitems ≤ key) ∧
    (key < v.nitems → vectorGet v key = .ok (v.base + key * v.stride)) := by
  refine ⟨⟨?_, ?_⟩, ?_⟩
  · intro h
    by_contra hlt
    have hge : ¬ key ≥ v.nitems := hlt
    simp [vectorGet, hge] at h
  · intro h
    have hge : key ≥ v.nitems := h
    simp [vectorGet, hge]
  · intro h
    have hge : ¬ key ≥ v.nitems := by omega
    simp [vectorGet, hge]

/-- Concrete instantiation of C9: a vector of 4 elements of stride 3 based at
100; index 2 is in bounds and resolves to address 106. -/
theorem c9_witness : vectorGet ⟨100, 4, 3⟩ 2 = .ok 106 :=
  (c9_vector_index ⟨100, 4, 3⟩ 2).2 (by decide)

/-- C2: two RMW requests to the same address on a fresh interface, with no other
operation in between, leave exactly one scheduled baseline read and — after
finalization — exactly one scheduled write, and executing the queue stores
`(baseline & ~(m1|m2)) | ((v1 & m1) & ~m2) | (v2 & m2)` at the address, where the
baseline is the register-file value captured by the single read: last writer wins
on overlapping bits, union elsewhere. -/
theorem c2_coalesced_rmw (rf : Nat → Nat) (a m1 v1 m2 v2 : Nat) :
    (rmwFinalize (rmwOp (rmwOp (initState rf) (some a) m1 v1) (some a) m2 v2)).opers =
      [DOp.dread 0 a,
       DOp.drmw 0 a (m1 ||| m2) (andNot (v1 &&& m1) m2 ||| (v2 &&& m2))] ∧
    (execList { rf := rf, futs := fun _ => none }
        (rmwFinalize (rmwOp (rmwOp (initState rf) (some a) m1 v1)
          (some a) m2 v2)).opers).map (fun e => e.rf a) =
      some (andNot (rf a) (m1 ||| m2) ||| (andNot (v1 &&& m1) m2 ||| (v2 &&& m2))) := by
  have hops :
      (rmwFinalize (rmwOp (rmwOp (initState rf) (some a) m1 v1) (some a) m2 v2)).opers =
        [DOp.dread 0 a,
         DOp.drmw 0 a (m1 ||| m2) (andNot (v1 &&& m1) m2 ||| (v2 &&& m2))] := by
    simp [rmwFinalize, rmwOp, initState, andNot]
  refine ⟨hops, ?_⟩
  rw [hops]
  simp [execList, execOp, setFut, updF, andNot]

/-- C4: the bitfield `write` and `writex` paths fail with OutOfRange exactly when
the value lies outside `[vmin, vmax]`; the range check precedes the register
read, every bus access and every state change, so the out-of-range failure is
identical on every interface state. -/
theorem c4_bitfield_range_check (s : IfState) (base : Nat) (bf : BitField)
    (v : Int) (now : Bool) :
    (bfaWrite s base bf v = .error .outOfRange ↔ (v < bf.vmin ∨ v > bf.vmax)) ∧
    (bfaWritex s base bf v now = .error .outOfRange ↔ (v < bf.vmin ∨ v > bf.vmax)) := by
  constructor
  · constructor
    · intro h
      by_contra hok
      unfold bfaWrite at h
      rw [if_neg hok] at h
      split at h
      · exact iwrite_not_oor _ _ _ h
      · rename_i heq
        cases h
        exact iread_not_oor _ _ heq
    · intro h
      unfold bfaWrite
      rw [if_pos h]
  · constructor
    · intro h
      by_contra hok
      unfold bfaWritex at h
      rw [if_neg hok] at h
      cases h
    · intro h
      unfold bfaWritex
      rw [if_pos h]

/-- Concrete instantiation of C4: writing 9 to the 3-bit unsigned field
`{msb=3, lsb=1}` (range 0..7) fails with OutOfRange. -/
theorem c4_witness : bfaWrite s0 13 ⟨3, 1, false⟩ 9 = .error .outOfRange :=
  (c4_bitfield_range_check s0 13 ⟨3, 1, false⟩ 9 true).1.mpr (by decide)

/-- C7: accessing a future's value returns the stored value immediately (no
dispatch, state unchanged) when resolved; otherwise it triggers exactly one
`dispatch` (the counter increases by one) and returns the then-stored value,
failing with Unresolved only if the future is still unresolved afterwards. -/
theorem c7_future_value (s : IfState) (fid : Nat) :
    (∀ v, s.futs fid = some v → futVal s fid = .ok (v, s)) ∧
    (s.futs fid = none →
      (∀ s2, dispatch s = .ok s2 →
        s2.nDispatch = s.nDispatch + 1 ∧
        (∀ v, s2.futs fid = some v → futVal s fid = .ok (v, s2)) ∧
        (s2.futs fid = none → futVal s fid = .error .unresolved)) ∧
      (∀ e, dispatch s = .error e → futVal s fid = .error e)) := by
  refine ⟨?_, ?_⟩
  · intro v hv
    unfold futVal
    rw [hv]
  · intro hn
    refine ⟨?_, ?_⟩
    · intro s2 hd
      refine ⟨dispatch_nDispatch hd, ?_, ?_⟩
      · intro v hv
        unfold futVal
        rw [hn, hd]
        simp [hv]
      · intro hv
        unfold futVal
        rw [hn, hd]
        simp [hv]
    · intro e hd
      unfold futVal
      rw [hn, hd]

/-- Concrete instantiation of C7: on a state with future 0 resolved to 42 the
access returns 42 without touching the state; on the fresh interface (future 0
never scheduled) the access dispatches once and fails with Unresolved. -/
theorem c7_witness :
    futVal sResolved 0 = .ok (42, sResolved) ∧
    futVal s0 0 = .error .unresolved := by
  constructor
  · exact (c7_future_value sResolved 0).1 42 rfl
  · exact (((c7_future_value s0 0).2 rfl).1 { s0 with nDispatch := 1 } rfl).2.2 rfl

/-- C6: an immediate `read` or `write` first finalizes any pending RMW (appending
its coalesced write at the tail of the deferred queue), then — when the queue is
non-empty — drains the whole queue in FIFO order, and only then performs its own
access: the value returned (and the file the write lands in) come from the
register file produced by executing every previously deferred operation in
order, so the immediate access overtakes neither the queue nor a pending RMW. -/
theorem c6_immediate_access_order (s : IfState) (addr val : Nat) (e : ExecSt)
    (he : execList { rf := s.rf, futs := s.futs } (rmwFinalize s).opers = some e) :
    (s.rmw_addr ≠ none →
      (rmwFinalize s).opers =
        s.opers ++ [DOp.drmw s.rmw_df (s.rmw_addr.getD 0) s.rmw_mask s.rmw_nval]) ∧
    (s.rmw_addr = none → rmwFinalize s = s) ∧
    iread s addr = .ok (e.rf addr, postState s e) ∧
    iwrite s addr val = .ok { postState s e with rf := updF e.rf addr val } := by
  have hrf : (rmwFinalize s).rf = s.rf ∧ (rmwFinalize s).futs = s.futs := by
    cases hr : s.rmw_addr
    · rw [rmwFinalize_none hr]
      exact ⟨rfl, rfl⟩
    · rw [rmwFinalize_some hr]
      exact ⟨rfl, rfl⟩
  refine ⟨?_, fun hr => rmwFinalize_none hr, ?_, ?_⟩
  · intro hne
    cases hr : s.rmw_addr
    · exact absurd hr hne
    · rw [rmwFinalize_some hr]
      rfl
  · by_cases hop : (rmwFinalize s).opers = []
    · have he2 : e = { rf := s.rf, futs := s.futs } := by
        rw [hop] at he
        exact (Option.some.injEq _ _).mp he.symm
      have hpost : postState s e = rmwFinalize s := by
        simp only [postState]
        rw [if_pos hop]
      simp only [iread]
      rw [if_pos hop]
      show Except.ok ((rmwFinalize s).rf addr, rmwFinalize s) =
        Except.ok (e.rf addr, postState s e)
      rw [hpost, hrf.1, he2]
    · have hpost : postState s e =
          { rmwFinalize s with rf := e.rf, futs := e.futs, opers := [],
                               nDispatch := (rmwFinalize s).nDispatch + 1 } := by
        simp only [postState]
        rw [if_neg hop]
      simp only [iread]
      rw [if_neg hop, dispatch_eq, if_neg hop, hrf.1, hrf.2, he, hpost]
  · by_cases hop : (rmwFinalize s).opers = []
    · have he2 : e = { rf := s.rf, futs := s.futs } := by
        rw [hop] at he
        exact (Option.some.injEq _ _).mp he.symm
      have hpost : postState s e = rmwFinalize s := by
        simp only [postState]
        rw [if_pos hop]
      simp only [iwrite]
      rw [if_pos hop]
      show Except.ok { rmwFinalize s with rf := updF (rmwFinalize s).rf addr val } =
        Except.ok { postState s e with rf := updF e.rf addr val }
      rw [hpost, hrf.1, he2]
    · have hpost : postState s e =
          { rmwFinalize s with rf := e.rf, futs := e.futs, opers := [],
                               nDispatch := (rmwFinalize s).nDispatch + 1 } := by
        simp only [postState]
        rw [if_neg hop]
      simp only [iwrite]
      rw [if_neg hop, dispatch_eq, if_neg hop, hrf.1, hrf.2, he, hpost]

/-- Concrete instantiation of C6: on the fresh interface (empty queue, no pending
RMW) the immediate read of address 9 returns the register-file value. -/
theorem c6_witness :
    iread s0 9 = .ok (rf0 9, postState s0 { rf := rf0, futs := noFuts }) :=
  (c6_immediate_access_order s0 9 7 { rf := rf0, futs := noFuts } rfl).2.2.1

/-- C10: the bitfield view of a status register bypasses the overridden `write`:
with a drained queue and no pending RMW, an in-range bitfield write succeeds and
performs the bus write (the register file is updated with the encoded word),
while the register-level `write` of the same status register always fails with
ReadOnly. -/
theorem c10_status_bitfield_bypass (s : IfState) (base : Nat) (bf : BitField)
    (v : Int) (hop : s.opers = []) (hrm : s.rmw_addr = none)
    (h1 : bf.vmin ≤ v) (h2 : v ≤ bf.vmax) :
    statusWrite s base (signConv bf v) = .error .readOnly ∧
    bfaWrite s base bf v =
      .ok { s with rf := updF s.rf base (encWord bf v (s.rf base)) } := by
  refine ⟨rfl, ?_⟩
  have hok : ¬ (v < bf.vmin ∨ v > bf.vmax) := by
    push_neg
    exact ⟨h1, h2⟩
  have hfin : rmwFinalize s = s := rmwFinalize_none hrm
  have hread : iread s base = .ok (s.rf base, s) := by
    simp only [iread]
    rw [hfin, if_pos hop]
  have hwrite : iwrite s base (encWord bf v (s.rf base)) =
      .ok { s with rf := updF s.rf base (encWord bf v (s.rf base)) } := by
    simp only [iwrite]
    rw [hfin, if_pos hop]
  unfold bfaWrite
  rw [if_neg hok, hread]
  exact hwrite

/-- Concrete instantiation of C10: on the fresh interface, writing 5 to the
status register bitfield `{msb=3, lsb=1}` of the register at address 13 updates
the register file, while the register-level status write raises ReadOnly. -/
theorem c10_witness :
    statusWrite s0 13 (signConv ⟨3, 1, false⟩ 5) = .error .readOnly ∧
    bfaWrite s0 13 ⟨3, 1, false⟩ 5 =
      .ok { s0 with rf := updF s0.rf 13 (encWord ⟨3, 1, false⟩ 5 (s0.rf 13)) } :=
  c10_status_bitfield_bypass s0 13 ⟨3, 1, false⟩ 5 rfl rfl (by decide) (by decide)

end Agwb
